import Mathlib

/-!
Verification of the Jache smart profiler core (`src/core/smart-profiler.js`)
against its natural-language specification.

The JavaScript source is shallowly embedded below:

* durations and thresholds (JS numbers) are modelled as rationals `ℚ`;
* argument/result values relevant to the memoization cache are modelled by
  `JVal` (JSON numbers and strings), and `JSON.stringify` of an argument
  array by `stringifyArgs`;
* a JS function is a pair of its source text (used by the `isPure`
  heuristic, which in the source is a regular-expression test consisting of
  an alternation of literal substrings) and its evaluation map, which may
  throw (`Except`);
* optional / absent option fields are `Option` values, and the JS `x || d`
  idiom (which falls back to `d` when `x` is `undefined` *or* `0`) is
  `jsOrQ` / `jsOrN`;
* one invocation of the wrapper returned by `SmartProfiler.profile` is
  `callStep`; a sequence of invocations is `runCalls`.  The measured
  duration `performance.now() - t0` of each call is supplied as an oracle
  input `dt`.  The Boolean returned alongside the result records whether
  the underlying (original) function was actually invoked on that call,
  and `fnCalls` accumulates that count, mirroring a counting test harness.
-/

set_option maxRecDepth 100000

set_option allowUnsafeReducibility true
attribute [local semireducible] Rat.add Rat.mul Rat.sub Rat.div Rat.inv Rat.floor Rat.ofScientific Rat.normalize

namespace Jache

/-- JSON-representable argument/result values used by the memoization cache
(numbers and strings suffice for the properties below). -/
inductive JVal where
  | num (n : ℤ)
  | str (s : String)
  deriving DecidableEq

/-- Escape `"` and `\` as in `JSON.stringify` of a string. -/
def escapeChars : List Char → List Char
  | [] => []
  | c :: cs =>
    if c = '"' ∨ c = '\\' then '\\' :: c :: escapeChars cs
    else c :: escapeChars cs

/-- `JSON.stringify` of a single `JVal`. -/
def jsonOfJVal : JVal → String
  | .num n => toString n
  | .str s => "\"" ++ String.mk (escapeChars s.data) ++ "\""

/-- Comma-join a list of strings. -/
def joinComma : List String → String
  | [] => ""
  | [s] => s
  | s :: rest => s ++ "," ++ joinComma rest

/-- `JSON.stringify(args)`: the cache key computed by `SmartProfiler.memoize`. -/
def stringifyArgs (args : List JVal) : String :=
  "[" ++ joinComma (args.map jsonOfJVal) ++ "]"

/-- Does `cs` start with `pat`? -/
def startsWithChars : List Char → List Char → Bool
  | [], _ => true
  | _ :: _, [] => false
  | p :: ps, c :: cs => p = c && startsWithChars ps cs

/-- Does `cs` contain `pat` as a contiguous substring? -/
def hasSubChars (pat : List Char) : List Char → Bool
  | [] => startsWithChars pat []
  | c :: cs => startsWithChars pat (c :: cs) || hasSubChars pat cs

/-- Does string `s` contain `pat` as a substring? -/
def strContains (s pat : String) : Bool :=
  hasSubChars pat.data s.data

/-- The denylist of the `isPure` regular expression
`/console\.|Math\.random|Date\.now|fetch|localStorage|setTimeout|setInterval/`
(an alternation of literal substrings; all dots are escaped in the source). -/
def pureDenylist : List String :=
  ["console.", "Math.random", "Date.now", "fetch", "localStorage",
   "setTimeout", "setInterval"]

/-- A JS function: its own source text (`fn.toString()`) together with its
evaluation map, which may throw. -/
structure JSFunction where
  src : String
  eval : List JVal → Except String JVal

/-- `SmartProfiler.isPure(fn)`: the regex test over `fn.toString()`, negated. -/
def isPure (fn : JSFunction) : Bool :=
  !(pureDenylist.any fun pat => strContains fn.src pat)

/-- The options object accepted by the `SmartProfiler` constructor (the
source destructures only the first four fields; a `profileAfter` entry,
although declared in `index.d.ts`, is ignored by the constructor). -/
structure SmartProfilerOptions where
  hotPercentile : Option ℚ := none
  minTimeMs : Option ℚ := none
  safeOptimizations : Option Bool := none
  historySize : Option ℕ := none
  profileAfter : Option ℕ := none

/-- The registry-wide configuration actually captured by the constructor. -/
structure RegistryConfig where
  hotPercentile : ℚ
  minTimeMs : ℚ
  safeOptimizations : Bool
  historySize : ℕ
  deriving DecidableEq

/-- The `SmartProfiler` constructor: destructuring with defaults
`{ hotPercentile = 0.95, minTimeMs = 1, safeOptimizations = true, historySize = 1000 }`.
Any `profileAfter` field of the options object is not destructured and has
no effect. -/
def mkSmartProfiler (o : SmartProfilerOptions) : RegistryConfig :=
  { hotPercentile := o.hotPercentile.getD 0.95
    minTimeMs := o.minTimeMs.getD 1
    safeOptimizations := o.safeOptimizations.getD true
    historySize := o.historySize.getD 1000 }

/-- The per-registration options object `opts` of `profile(fn, name, opts)`.
`profileAfter`, although declared in `index.d.ts`, is never read by
`profile`. -/
structure ProfileOpts where
  memoize : Bool := false
  minTimeMs : Option ℚ := none
  percentile : Option ℚ := none
  historySize : Option ℕ := none
  profileAfter : Option ℕ := none
  deriving DecidableEq

/-- JS `x || d` for an optional numeric `x`: `undefined` and `0` are falsy. -/
def jsOrQ : Option ℚ → ℚ → ℚ
  | some v, d => if v = 0 then d else v
  | none, d => d

/-- JS `x || d` for an optional natural `x`: `undefined` and `0` are falsy. -/
def jsOrN : Option ℕ → ℕ → ℕ
  | some v, d => if v = 0 then d else v
  | none, d => d

/-- Increment position `n` of a bucket list (out of range: unchanged). -/
def bumpNat : List ℕ → ℕ → List ℕ
  | [], _ => []
  | h :: t, 0 => (h + 1) :: t
  | h :: t, n + 1 => h :: bumpNat t n

/-- `hist[idx]++` for a possibly negative JS index: a negative index names a
plain object property, not an array element, so the bucket list is
unchanged. -/
def bumpAt (hist : List ℕ) (i : ℤ) : List ℕ :=
  if i < 0 then hist else bumpNat hist i.toNat

/-- `SmartProfiler.buildHistogram(arr, bins = 10)` (lines 129-141 of the
source): empty input gives `bins` zero buckets; `min == max` gives the
single bucket `[arr.length]`; otherwise each sample is bucketed at
`Math.min(bins - 1, Math.floor((v - min) / step))` with
`step = (max - min) / bins`. -/
def buildHistogram (arr : List ℚ) (bins : ℕ := 10) : List ℕ :=
  match arr with
  | [] => List.replicate bins 0
  | a :: rest =>
    let mn := rest.foldl min a
    let mx := rest.foldl max a
    if mn = mx then [(a :: rest).length]
    else
      let step := (mx - mn) / (bins : ℚ)
      (a :: rest).foldl
        (fun hist v => bumpAt hist (min ((bins : ℤ) - 1) ((v - mn) / step).floor))
        (List.replicate bins 0)

/-- `[...callTimes].sort((a, b) => a - b)`: ascending numeric sort. -/
def sortAsc (l : List ℚ) : List ℚ := List.insertionSort (· ≤ ·) l

/-- JS array indexing `l[i]` for an integer index: negative or past-the-end
indices give `undefined` (`none`). -/
def jsIndex (l : List ℚ) (i : ℤ) : Option ℚ :=
  if i < 0 then none else l.get? i.toNat

/-- The statistics snapshot stored by `stats.set(name, {...})`
(lines 65-73 of the source). -/
structure FnStats where
  median : Option ℚ
  hot : Option ℚ
  min : Option ℚ
  max : Option ℚ
  count : ℕ
  histogram : List ℕ
  history : List ℚ
  deriving DecidableEq

/-- Lines 62-73 of the source: sort the buffer, take the percentile index
`Math.floor(sorted.length * (opts.percentile || this.hotPercentile))`
(note: no clamping), and build the snapshot. -/
def analyze (cfg : RegistryConfig) (opts : ProfileOpts)
    (callTimes : List ℚ) (callCount : ℕ) (history : List ℚ) : FnStats :=
  let sorted := sortAsc callTimes
  let p : ℤ := ((sorted.length : ℚ) * jsOrQ opts.percentile cfg.hotPercentile).floor
  { median := sorted.get? 50
    hot := jsIndex sorted p
    min := sorted.get? 0
    max := sorted.get? 99
    count := callCount
    histogram := buildHistogram history 10
    history := history }

/-- Lines 74-76 of the source: the optimization gate
`hotTime > (opts.minTimeMs || this.minTimeMs) && opts.memoize && isPure(fn)`
(`undefined > x` is `false` in JS). -/
def optGate (cfg : RegistryConfig) (opts : ProfileOpts) (fn : JSFunction)
    (st : FnStats) : Bool :=
  (match st.hot with
   | some h => decide (jsOrQ opts.minTimeMs cfg.minTimeMs < h)
   | none => false)
  && opts.memoize && isPure fn

/-- The mutable state closed over by one wrapper, together with the
registry map entries written under this wrapper's name (`stats`,
`optimizedTag`, i.e. `this.stats.get(name)` / `this.optimized.get(name)`).
`fnCalls` counts invocations of the underlying original function. -/
structure WrapperState where
  callTimes : List ℚ
  isOptimized : Bool
  memoCache : List (String × JVal)
  callCount : ℕ
  history : List ℚ
  stats : Option FnStats
  optimizedTag : Option String
  fnCalls : ℕ
  deriving DecidableEq

/-- The fresh state created by `profile` (lines 37-41). -/
def initWrapper : WrapperState :=
  { callTimes := [], isOptimized := false, memoCache := [], callCount := 0
    history := [], stats := none, optimizedTag := none, fnCalls := 0 }

/-- `Map.get` on the memoization cache, modelled as an association list. -/
def cacheGet : List (String × JVal) → String → Option JVal
  | [], _ => none
  | (k, v) :: rest, key => if k = key then some v else cacheGet rest key

/-- One call of the closure returned by `SmartProfiler.memoize(fn)`
(lines 168-177): key `JSON.stringify(args)`; on a hit return the cached
value without invoking `fn`; on a miss invoke `fn` and cache the result.
The Boolean records whether `fn` was invoked. -/
def memoCall (fn : JSFunction) (cache : List (String × JVal))
    (args : List JVal) : Except String (JVal × List (String × JVal) × Bool) :=
  let key := stringifyArgs args
  match cacheGet cache key with
  | some v => Except.ok (v, cache, false)
  | none =>
    match fn.eval args with
    | Except.error e => Except.error e
    | Except.ok res => Except.ok (res, (key, res) :: cache, true)

/-- The invocation `optimizedFn(...args)` of the current active callee
(line 52): the memoized closure once swapped, the original `fn` before. -/
def activeCall (fn : JSFunction) (s : WrapperState) (args : List JVal) :
    Except String (JVal × List (String × JVal) × Bool) :=
  if s.isOptimized then memoCall fn s.memoCache args
  else
    match fn.eval args with
    | Except.error e => Except.error e
    | Except.ok res => Except.ok (res, s.memoCache, true)

/-- Lines 57-58: append to the rolling history, then
`if (history.length > (opts.historySize || 1000)) history.shift()`. -/
def trimHist (opts : ProfileOpts) (history : List ℚ) (dt : ℚ) : List ℚ :=
  let h0 := history ++ [dt]
  if h0.length > jsOrN opts.historySize 1000 then h0.tail else h0

/-- Lines 55-58: record the measured duration in the analysis buffer and
the rolling history and bump the call counter. -/
def bookkeep (opts : ProfileOpts) (s : WrapperState) (dt : ℚ)
    (cache2 : List (String × JVal)) (invoked : Bool) : WrapperState :=
  { s with
    callTimes := s.callTimes ++ [dt]
    callCount := s.callCount + 1
    memoCache := cache2
    history := trimHist opts s.history dt
    fnCalls := s.fnCalls + (if invoked then 1 else 0) }

/-- Lines 65-81: publish the snapshot `st` and, when the gate passes, swap
in a fresh memoization cache and record the `'memoized'` tag. -/
def applyGate (cfg : RegistryConfig) (opts : ProfileOpts) (fn : JSFunction)
    (st : FnStats) (s : WrapperState) : WrapperState :=
  if optGate cfg opts fn st then
    { s with stats := some st, isOptimized := true, memoCache := [],
             optimizedTag := some "memoized" }
  else
    { s with stats := some st }

/-- Lines 61-82: `if (!isOptimized && callTimes.length === 100)` analyze the
buffer and apply the optimization gate. -/
def analyzeStep (cfg : RegistryConfig) (opts : ProfileOpts) (fn : JSFunction)
    (s : WrapperState) : WrapperState :=
  if s.isOptimized = false ∧ s.callTimes.length = 100 then
    applyGate cfg opts fn (analyze cfg opts s.callTimes s.callCount s.history) s
  else s

/-- One invocation of the wrapper (lines 50-84): invoke the active callee
(a thrown exception propagates and skips all bookkeeping), record the
measured duration `dt`, and possibly analyze.  Returns the result, whether
the underlying function was invoked, and the new state. -/
def callStep (cfg : RegistryConfig) (opts : ProfileOpts) (fn : JSFunction)
    (s : WrapperState) (args : List JVal) (dt : ℚ) :
    Except String (JVal × Bool × WrapperState) :=
  match activeCall fn s args with
  | Except.error e => Except.error e
  | Except.ok (res, cache2, invoked) =>
    Except.ok (res, invoked, analyzeStep cfg opts fn (bookkeep opts s dt cache2 invoked))

/-- A sequence of wrapper invocations, each given its arguments and its
measured duration; a call whose callee throws leaves the state unchanged
(the caller catches and continues). -/
def runCalls (cfg : RegistryConfig) (opts : ProfileOpts) (fn : JSFunction)
    (s : WrapperState) (calls : List (List JVal × ℚ)) : WrapperState :=
  calls.foldl
    (fun acc c =>
      match callStep cfg opts fn acc c.1 c.2 with
      | Except.ok (_, _, s2) => s2
      | Except.error _ => acc) s

/-- The JS value returned by `wrapper.__jacheStats()`. -/
inductive JacheStatsResult where
  | emptyObj
  | obj (st : FnStats)
  deriving DecidableEq

/-- Line 85: `wrapper.__jacheStats = () => stats.get(name) || {}`
(a `Map.get` miss is `undefined`, which is falsy, so `{}` is returned). -/
def jacheStats (s : WrapperState) : JacheStatsResult :=
  match s.stats with
  | some st => JacheStatsResult.obj st
  | none => JacheStatsResult.emptyObj

/-- A stored per-name threshold override. -/
structure Thresholds where
  minTimeMs : Option ℚ := none
  percentile : Option ℚ := none
  deriving DecidableEq

/-- The registry-level mutable maps relevant to threshold overrides. -/
structure Registry where
  cfg : RegistryConfig
  customThresholds : List (String × Thresholds)
  deriving DecidableEq

/-- `new SmartProfiler(options)`. -/
def mkRegistry (o : SmartProfilerOptions) : Registry :=
  { cfg := mkSmartProfiler o, customThresholds := [] }

/-- `setThresholds(name, thresholds)` (lines 96-98): stores the override in
`this.customThresholds`.  No other method of the class ever reads this
map. -/
def setThresholds (r : Registry) (name : String) (t : Thresholds) : Registry :=
  { r with customThresholds := (name, t) :: r.customThresholds }

/-- JS truthiness of an optional numeric option value. -/
def truthyQ : Option ℚ → Bool
  | some v => v != 0
  | none => false

/-- The registry-map effect of `profile(fn, name, opts)` (lines 43-48):
`if (opts.minTimeMs || opts.percentile)` store them in
`this.customThresholds`.  The wrapper itself closes over `opts` and the
registry configuration only; it never reads `customThresholds`. -/
def profileRegister (r : Registry) (name : String) (opts : ProfileOpts) : Registry :=
  if truthyQ opts.minTimeMs || truthyQ opts.percentile then
    { r with customThresholds :=
        (name, { minTimeMs := opts.minTimeMs, percentile := opts.percentile }) :: r.customThresholds }
  else r

/-- The default registry configuration `new SmartProfiler()`. -/
def defaultCfg : RegistryConfig := mkSmartProfiler {}

/-- The default (empty) per-registration options. -/
def defaultOpts : ProfileOpts := {}

/-- The pure binary addition function `(a, b) => a + b` (summing two JSON
numbers; other argument shapes evaluate to `0`). -/
def addFn : JSFunction :=
  { src := "(a, b) => a + b"
    eval := fun args =>
      match args with
      | [JVal.num a, JVal.num b] => Except.ok (JVal.num (a + b))
      | _ => Except.ok (JVal.num 0) }

/-- A callee that always throws. -/
def throwFn : JSFunction :=
  { src := "() => \x7b throw new Error(msg); \x7d"
    eval := fun _ => Except.error "boom" }

/-- `n` wrapper calls with fixed arguments and fixed measured duration. -/
def constCalls (n : ℕ) (args : List JVal) (d : ℚ) : List (List JVal × ℚ) :=
  List.replicate n (args, d)

/-- Wrapper calls with no arguments and the given measured durations. -/
def varCalls (ds : List ℚ) : List (List JVal × ℚ) :=
  ds.map fun d => ([], d)

/-- A function that never throws. -/
def noThrow (fn : JSFunction) : Prop :=
  ∀ args, ∃ r, fn.eval args = Except.ok r

/-- The observable result/underlying-invocation pair of one wrapper call. -/
def stepOut (e : Except String (JVal × Bool × WrapperState)) : Option (JVal × Bool) :=
  match e with
  | Except.ok (r, i, _) => some (r, i)
  | Except.error _ => none

/-- The post-state of one wrapper call (initial state on a throw). -/
def stepStateD (e : Except String (JVal × Bool × WrapperState)) : WrapperState :=
  match e with
  | Except.ok (_, _, s) => s
  | Except.error _ => initWrapper

/-- `Math.min(...arr)` of a possibly empty list (`none` for empty). -/
def listMin : List ℚ → Option ℚ
  | [] => none
  | a :: rest => some (rest.foldl min a)

/- Concrete scenarios used by the claim theorems and witnesses. -/

/-- C1: registration opting into memoization. -/
def c1Opts : ProfileOpts := { memoize := true }

/-- C1: the wrapper state after the first 100 profiled calls of `(a, b) => a + b`
with arguments `(2, 3)`, each measuring 5 ms (hot value 5 exceeds the default
`minTimeMs = 1`, so the memoization swap is installed at call 100). -/
def c1Base : WrapperState :=
  runCalls defaultCfg c1Opts addFn initWrapper
    (constCalls 100 [JVal.num 2, JVal.num 3] 5)

/-- C1: call 101, arguments `(2, 3)`. -/
def c1Step1 : Except String (JVal × Bool × WrapperState) :=
  callStep defaultCfg c1Opts addFn c1Base [JVal.num 2, JVal.num 3] 5

def c1S1 : WrapperState := stepStateD c1Step1

/-- C1: call 102, arguments `(2, 3)` again. -/
def c1Step2 : Except String (JVal × Bool × WrapperState) :=
  callStep defaultCfg c1Opts addFn c1S1 [JVal.num 2, JVal.num 3] 5

def c1S2 : WrapperState := stepStateD c1Step2

/-- C1: call 103, arguments `(3, 2)`. -/
def c1Step3 : Except String (JVal × Bool × WrapperState) :=
  callStep defaultCfg c1Opts addFn c1S2 [JVal.num 3, JVal.num 2] 5

def c1S3 : WrapperState := stepStateD c1Step3

/-- C2: a registration whose supplied percentile is `1`. -/
def c2Opts : ProfileOpts := { percentile := some 1 }

/-- C2: 100 calls, each measuring 5 ms, under effective percentile `1.0`. -/
def c2Run : WrapperState :=
  runCalls defaultCfg c2Opts addFn initWrapper (constCalls 100 [] 5)

/-- C2 witness: a registry whose global percentile is `1`. -/
def c2OneCfg : RegistryConfig := mkSmartProfiler { hotPercentile := some 1 }

/-- C2 witness: a registry whose global percentile is `0`. -/
def c2ZeroCfg : RegistryConfig := mkSmartProfiler { hotPercentile := some 0 }

/-- C3: a registry constructed with `profileAfter: 100`. -/
def c3Cfg : RegistryConfig := mkSmartProfiler { profileAfter := some 100 }

/-- C3: a registration with `profileAfter: 100`. -/
def c3Opts : ProfileOpts := { profileAfter := some 100 }

/-- C3: a single (first) call, measuring 2 ms, under `profileAfter = 100`. -/
def c3Run : WrapperState :=
  runCalls c3Cfg c3Opts addFn initWrapper [([JVal.num 1, JVal.num 1], 2)]

/-- C7: a registry constructed with `historySize: 5`. -/
def c7Cfg : RegistryConfig := mkSmartProfiler { historySize := some 5 }

/-- C7: 7 calls under the registry-wide `historySize = 5` with no
per-registration override. -/
def c7Run : WrapperState :=
  runCalls c7Cfg defaultOpts addFn initWrapper
    (varCalls [10, 20, 30, 40, 50, 60, 70])

/-- C7: a registration with the per-registration override `historySize: 3`. -/
def c7OverrideOpts : ProfileOpts := { historySize := some 3 }

/-- C7: 5 calls with distinct durations under the override `historySize = 3`. -/
def c7Run2 : WrapperState :=
  runCalls defaultCfg c7OverrideOpts addFn initWrapper (varCalls [1, 2, 3, 4, 5])

/-- C8: a registration that supplies `minTimeMs: 0` and opts into memoization. -/
def c8Opts : ProfileOpts := { memoize := true, minTimeMs := some 0 }

/-- C8: 100 calls each measuring 0.5 ms under the supplied `minTimeMs = 0`
(registry default `minTimeMs = 1`). -/
def c8Run : WrapperState :=
  runCalls defaultCfg c8Opts addFn initWrapper
    (constCalls 100 [JVal.num 2, JVal.num 3] (1/2))

/-- C8 witness: memoization opted in, no threshold overrides. -/
def c8wOpts : ProfileOpts := { memoize := true }

/-- C8 witness: a wrapper state one call short of analysis. -/
def c8wState : WrapperState :=
  { initWrapper with callTimes := List.replicate 99 5, callCount := 99,
                     history := List.replicate 99 5 }

def c8wStep : Except String (JVal × Bool × WrapperState) :=
  callStep defaultCfg c8wOpts addFn c8wState [] 5

def c8wS2 : WrapperState := stepStateD c8wStep

/-- C9: a registry on which `setThresholds('slow', { minTimeMs: 100 })` was
called before any registration under that name. -/
def c9Reg : Registry :=
  setThresholds (mkRegistry {}) "slow" { minTimeMs := some 100 }

/-- C9: a subsequent registration under that name, with no per-registration
threshold overrides. -/
def c9Opts : ProfileOpts := { memoize := true }

/-- C9: 100 calls each measuring 5 ms of the wrapper registered after
`setThresholds` stored `minTimeMs = 100`. -/
def c9Run : WrapperState :=
  runCalls c9Reg.cfg c9Opts addFn initWrapper
    (constCalls 100 [JVal.num 2, JVal.num 3] 5)

/-- C5 witness: a wrapper state one call short of analysis. -/
def c5wState : WrapperState :=
  { initWrapper with callTimes := List.replicate 99 7, callCount := 99,
                     history := List.replicate 99 7 }

def c5wStep : Except String (JVal × Bool × WrapperState) :=
  callStep defaultCfg defaultOpts addFn c5wState [] 7

def c5wS2 : WrapperState := stepStateD c5wStep

/-- C10 witness: a published snapshot. -/
def c10Stats : FnStats :=
  { median := some 1, hot := some 1, min := some 1, max := some 1,
    count := 100, histogram := [100], history := [] }

/-- C10 witness: a wrapper state whose registry entry holds `c10Stats`. -/
def c10State : WrapperState := { initWrapper with stats := some c10Stats }

/-! ### Helper lemmas about one wrapper call -/

/-- A successful wrapper call decomposes into a successful active-callee
invocation followed by bookkeeping and the (possible) analysis. -/
theorem callStep_ok_elim {cfg : RegistryConfig} {opts : ProfileOpts}
    {fn : JSFunction} {s : WrapperState} {args : List JVal} {dt : ℚ}
    {res : JVal} {inv : Bool} {s2 : WrapperState}
    (h : callStep cfg opts fn s args dt = Except.ok (res, inv, s2)) :
    ∃ cache2, activeCall fn s args = Except.ok (res, cache2, inv) ∧
      s2 = analyzeStep cfg opts fn (bookkeep opts s dt cache2 inv) := by
  unfold callStep at h
  cases hac : activeCall fn s args with
  | error e => rw [hac] at h; cases h
  | ok t =>
    obtain ⟨r, c2, i⟩ := t
    rw [hac] at h
    simp only [Except.ok.injEq, Prod.mk.injEq] at h
    obtain ⟨h1, h2, h3⟩ := h
    subst h1; subst h2
    exact ⟨c2, rfl, h3.symm⟩

/-- The analysis phase never touches the buffers or counters. -/
theorem analyzeStep_fields (cfg : RegistryConfig) (opts : ProfileOpts)
    (fn : JSFunction) (s : WrapperState) :
    (analyzeStep cfg opts fn s).callTimes = s.callTimes ∧
    (analyzeStep cfg opts fn s).callCount = s.callCount ∧
    (analyzeStep cfg opts fn s).history = s.history ∧
    (analyzeStep cfg opts fn s).fnCalls = s.fnCalls := by
  unfold analyzeStep applyGate
  split
  · split <;> exact ⟨rfl, rfl, rfl, rfl⟩
  · exact ⟨rfl, rfl, rfl, rfl⟩

/-- Buffer, counter and history evolution of a successful wrapper call. -/
theorem callStep_fields {cfg : RegistryConfig} {opts : ProfileOpts}
    {fn : JSFunction} {s : WrapperState} {args : List JVal} {dt : ℚ}
    {res : JVal} {inv : Bool} {s2 : WrapperState}
    (h : callStep cfg opts fn s args dt = Except.ok (res, inv, s2)) :
    s2.callTimes = s.callTimes ++ [dt] ∧
    s2.callCount = s.callCount + 1 ∧
    s2.history = trimHist opts s.history dt ∧
    s2.fnCalls = s.fnCalls + (if inv then 1 else 0) := by
  obtain ⟨c2, _, hs2⟩ := callStep_ok_elim h
  subst hs2
  obtain ⟨h1, h2, h3, h4⟩ := analyzeStep_fields cfg opts fn (bookkeep opts s dt c2 inv)
  exact ⟨h1, h2, h3, h4⟩

/-- Away from the 100th sample, a call changes no registry-visible state. -/
theorem callStep_stats_of_ne {cfg : RegistryConfig} {opts : ProfileOpts}
    {fn : JSFunction} {s : WrapperState} {args : List JVal} {dt : ℚ}
    {res : JVal} {inv : Bool} {s2 : WrapperState}
    (h : callStep cfg opts fn s args dt = Except.ok (res, inv, s2))
    (hlen : s.callTimes.length ≠ 99) :
    s2.stats = s.stats ∧ s2.isOptimized = s.isOptimized ∧
    s2.optimizedTag = s.optimizedTag := by
  obtain ⟨c2, _, hs2⟩ := callStep_ok_elim h
  subst hs2
  have hguard : ¬ ((bookkeep opts s dt c2 inv).isOptimized = false ∧
      (bookkeep opts s dt c2 inv).callTimes.length = 100) := by
    rintro ⟨-, hc⟩
    apply hlen
    have : (bookkeep opts s dt c2 inv).callTimes = s.callTimes ++ [dt] := rfl
    rw [this, List.length_append, List.length_singleton] at hc
    omega
  unfold analyzeStep
  rw [if_neg hguard]
  exact ⟨rfl, rfl, rfl⟩

/-- At the 100th sample of an unoptimized wrapper, the snapshot is published
and the swap is governed exactly by the optimization gate. -/
theorem callStep_analysis {cfg : RegistryConfig} {opts : ProfileOpts}
    {fn : JSFunction} {s : WrapperState} {args : List JVal} {dt : ℚ}
    {res : JVal} {inv : Bool} {s2 : WrapperState}
    (h : callStep cfg opts fn s args dt = Except.ok (res, inv, s2))
    (hopt : s.isOptimized = false) (hlen : s.callTimes.length = 99) :
    s2.stats = some (analyze cfg opts (s.callTimes ++ [dt]) (s.callCount + 1)
        (trimHist opts s.history dt)) ∧
    (s2.isOptimized = true ↔
      optGate cfg opts fn (analyze cfg opts (s.callTimes ++ [dt]) (s.callCount + 1)
        (trimHist opts s.history dt)) = true) ∧
    (s.optimizedTag = none →
      (s2.optimizedTag = some "memoized" ↔
        optGate cfg opts fn (analyze cfg opts (s.callTimes ++ [dt]) (s.callCount + 1)
          (trimHist opts s.history dt)) = true)) := by
  obtain ⟨c2, _, hs2⟩ := callStep_ok_elim h
  subst hs2
  have hb : (bookkeep opts s dt c2 inv).callTimes = s.callTimes ++ [dt] := rfl
  have hguard : (bookkeep opts s dt c2 inv).isOptimized = false ∧
      (bookkeep opts s dt c2 inv).callTimes.length = 100 := by
    refine ⟨hopt, ?_⟩
    rw [hb, List.length_append, List.length_singleton, hlen]
  unfold analyzeStep
  rw [if_pos hguard]
  have harg : analyze cfg opts (bookkeep opts s dt c2 inv).callTimes
      (bookkeep opts s dt c2 inv).callCount (bookkeep opts s dt c2 inv).history =
      analyze cfg opts (s.callTimes ++ [dt]) (s.callCount + 1)
        (trimHist opts s.history dt) := rfl
  rw [harg]
  unfold applyGate
  split
  · next hgate => exact ⟨rfl, by simp [hgate], fun _ => by simp [hgate]⟩
  · next hgate =>
    have hgate' :
        optGate cfg opts fn (analyze cfg opts (s.callTimes ++ [dt])
          (s.callCount + 1) (trimHist opts s.history dt)) = false := by
      simpa using hgate
    refine ⟨rfl, ?_, fun htag => ?_⟩
    · show (bookkeep opts s dt c2 inv).isOptimized = true ↔ _
      have hbopt : (bookkeep opts s dt c2 inv).isOptimized = s.isOptimized := rfl
      rw [hbopt, hopt, hgate']
    · show (bookkeep opts s dt c2 inv).optimizedTag = some "memoized" ↔ _
      have hbtag : (bookkeep opts s dt c2 inv).optimizedTag = s.optimizedTag := rfl
      rw [hbtag, htag, hgate']
      simp

/-! ### Helper lemmas about call sequences -/

theorem runCalls_nil (cfg : RegistryConfig) (opts : ProfileOpts)
    (fn : JSFunction) (s : WrapperState) : runCalls cfg opts fn s [] = s := rfl

theorem runCalls_cons (cfg : RegistryConfig) (opts : ProfileOpts)
    (fn : JSFunction) (s : WrapperState) (c : List JVal × ℚ)
    (calls : List (List JVal × ℚ)) :
    runCalls cfg opts fn s (c :: calls) =
    runCalls cfg opts fn
      (match callStep cfg opts fn s c.1 c.2 with
       | Except.ok (_, _, s2) => s2
       | Except.error _ => s) calls := rfl

theorem runCalls_append (cfg : RegistryConfig) (opts : ProfileOpts)
    (fn : JSFunction) (s : WrapperState) (l1 l2 : List (List JVal × ℚ)) :
    runCalls cfg opts fn s (l1 ++ l2) =
    runCalls cfg opts fn (runCalls cfg opts fn s l1) l2 := by
  unfold runCalls
  exact List.foldl_append _ _ l1 l2

/-- A non-throwing callee makes every active-callee invocation succeed. -/
theorem activeCall_ok_of_noThrow {fn : JSFunction} (hfn : noThrow fn)
    (s : WrapperState) (args : List JVal) :
    ∃ r c2 i, activeCall fn s args = Except.ok (r, c2, i) := by
  unfold activeCall
  cases hso : s.isOptimized with
  | false =>
    obtain ⟨r, hr⟩ := hfn args
    exact ⟨r, s.memoCache, true, by simp [hr]⟩
  | true =>
    simp only [if_pos rfl]
    unfold memoCall
    cases hcg : cacheGet s.memoCache (stringifyArgs args) with
    | some v => exact ⟨v, s.memoCache, false, by simp [hcg]⟩
    | none =>
      obtain ⟨r, hr⟩ := hfn args
      exact ⟨r, (stringifyArgs args, r) :: s.memoCache, true, by simp [hcg, hr]⟩

/-- A non-throwing callee makes every wrapper call succeed. -/
theorem callStep_ok_of_noThrow (cfg : RegistryConfig) (opts : ProfileOpts)
    {fn : JSFunction} (hfn : noThrow fn) (s : WrapperState)
    (args : List JVal) (dt : ℚ) :
    ∃ res inv s2, callStep cfg opts fn s args dt = Except.ok (res, inv, s2) := by
  obtain ⟨r, c2, i, hac⟩ := activeCall_ok_of_noThrow hfn s args
  exact ⟨r, i, analyzeStep cfg opts fn (bookkeep opts s dt c2 i),
    by unfold callStep; rw [hac]⟩

/-- With a non-throwing callee, the analysis buffer accumulates exactly the
measured durations, in call order. -/
theorem runCalls_callTimes (cfg : RegistryConfig) (opts : ProfileOpts)
    {fn : JSFunction} (hfn : noThrow fn) (s : WrapperState)
    (calls : List (List JVal × ℚ)) :
    (runCalls cfg opts fn s calls).callTimes =
      s.callTimes ++ calls.map Prod.snd := by
  induction calls generalizing s with
  | nil => simp [runCalls_nil]
  | cons c rest ih =>
    obtain ⟨res, inv, s2, hstep⟩ := callStep_ok_of_noThrow cfg opts hfn s c.1 c.2
    rw [runCalls_cons, hstep]
    rw [ih s2, (callStep_fields hstep).1]
    simp

/-- With a non-throwing callee, the call counter counts every call. -/
theorem runCalls_callCount (cfg : RegistryConfig) (opts : ProfileOpts)
    {fn : JSFunction} (hfn : noThrow fn) (s : WrapperState)
    (calls : List (List JVal × ℚ)) :
    (runCalls cfg opts fn s calls).callCount = s.callCount + calls.length := by
  induction calls generalizing s with
  | nil => simp [runCalls_nil]
  | cons c rest ih =>
    obtain ⟨res, inv, s2, hstep⟩ := callStep_ok_of_noThrow cfg opts hfn s c.1 c.2
    rw [runCalls_cons, hstep]
    rw [ih s2, (callStep_fields hstep).2.1]
    simp [Nat.add_assoc, Nat.add_comm 1 rest.length]

/-- Before the buffer can reach 100 samples, no snapshot is published, no
swap occurs and no tag is recorded. -/
theorem runCalls_pre100 (cfg : RegistryConfig) (opts : ProfileOpts)
    (fn : JSFunction) (s : WrapperState) (calls : List (List JVal × ℚ))
    (hs : s.stats = none) (hopt : s.isOptimized = false)
    (htag : s.optimizedTag = none)
    (hlen : s.callTimes.length + calls.length < 100) :
    (runCalls cfg opts fn s calls).stats = none ∧
    (runCalls cfg opts fn s calls).isOptimized = false ∧
    (runCalls cfg opts fn s calls).optimizedTag = none ∧
    (runCalls cfg opts fn s calls).callTimes.length ≤
      s.callTimes.length + calls.length := by
  induction calls generalizing s with
  | nil => exact ⟨hs, hopt, htag, by simp [runCalls_nil]⟩
  | cons c rest ih =>
    rw [runCalls_cons]
    cases hstep : callStep cfg opts fn s c.1 c.2 with
    | error e =>
      have := ih s hs hopt htag (by simp at hlen ⊢; omega)
      exact ⟨this.1, this.2.1, this.2.2.1, by simp at hlen ⊢; omega⟩
    | ok t =>
      obtain ⟨res, inv, s2⟩ := t
      have hne : s.callTimes.length ≠ 99 := by simp at hlen; omega
      obtain ⟨hst, hio, hot⟩ := callStep_stats_of_ne hstep hne
      have hlen2 : s2.callTimes.length = s.callTimes.length + 1 := by
        rw [(callStep_fields hstep).1]; simp
      have := ih s2 (hst.trans hs) (hio.trans hopt) (hot.trans htag)
        (by simp at hlen ⊢; omega)
      exact ⟨this.1, this.2.1, this.2.2.1, by simp at hlen ⊢; omega⟩

/-- Once the analysis buffer holds at least 100 samples, the published
snapshot, the swap flag and the optimization tag never change again. -/
theorem runCalls_frozen (cfg : RegistryConfig) (opts : ProfileOpts)
    (fn : JSFunction) (s : WrapperState) (calls : List (List JVal × ℚ))
    (hlen : 100 ≤ s.callTimes.length) :
    (runCalls cfg opts fn s calls).stats = s.stats ∧
    (runCalls cfg opts fn s calls).isOptimized = s.isOptimized ∧
    (runCalls cfg opts fn s calls).optimizedTag = s.optimizedTag := by
  induction calls generalizing s with
  | nil => exact ⟨rfl, rfl, rfl⟩
  | cons c rest ih =>
    rw [runCalls_cons]
    cases hstep : callStep cfg opts fn s c.1 c.2 with
    | error e => exact ih s hlen
    | ok t =>
      obtain ⟨res, inv, s2⟩ := t
      have hne : s.callTimes.length ≠ 99 := by omega
      obtain ⟨hst, hio, hot⟩ := callStep_stats_of_ne hstep hne
      have hlen2 : 100 ≤ s2.callTimes.length := by
        rw [(callStep_fields hstep).1]; simp; omega
      obtain ⟨a, b, c'⟩ := ih s2 hlen2
      exact ⟨a.trans hst, b.trans hio, c'.trans hot⟩

/-! ### Helper lemmas about sorting, minima and histogram buckets -/

/-- `Rat.floor` agrees with the floor of the `FloorRing` structure on `ℚ`. -/
theorem ratFloor_eq (q : ℚ) : q.floor = ⌊q⌋ := by
  rw [Rat.floor_def' q, Rat.floor_def]

theorem sortAsc_perm (l : List ℚ) : List.Perm (sortAsc l) l :=
  List.perm_insertionSort _ l

theorem sortAsc_length (l : List ℚ) : (sortAsc l).length = l.length :=
  (sortAsc_perm l).length_eq

theorem sortAsc_sorted (l : List ℚ) : List.Sorted (· ≤ ·) (sortAsc l) :=
  List.sorted_insertionSort _ l

theorem sortAsc_replicate (n : ℕ) (a : ℚ) :
    sortAsc (List.replicate n a) = List.replicate n a := by
  induction n with
  | zero => rfl
  | succ m ih =>
    show List.insertionSort _ (List.replicate (m + 1) a) = _
    rw [List.replicate_succ]
    show List.orderedInsert _ a (List.insertionSort _ (List.replicate m a)) = _
    rw [show List.insertionSort (· ≤ ·) (List.replicate m a) =
        sortAsc (List.replicate m a) from rfl, ih]
    cases m with
    | zero => rfl
    | succ k =>
      rw [List.replicate_succ]
      simp [List.orderedInsert, le_refl]

theorem replicate_get? (a : ℚ) (n k : ℕ) (h : k < n) :
    (List.replicate n a).get? k = some a := by
  induction n generalizing k with
  | zero => omega
  | succ m ih =>
    rw [List.replicate_succ]
    cases k with
    | zero => rfl
    | succ j => exact ih j (by omega)

theorem foldl_min_le_init (l : List ℚ) (a : ℚ) : l.foldl min a ≤ a := by
  induction l generalizing a with
  | nil => exact le_refl a
  | cons b t ih => exact le_trans (ih (min a b)) (min_le_left a b)

theorem le_foldl_max_init (l : List ℚ) (a : ℚ) : a ≤ l.foldl max a := by
  induction l generalizing a with
  | nil => exact le_refl a
  | cons b t ih => exact le_trans (le_max_left a b) (ih (max a b))

theorem foldl_min_le_mem (l : List ℚ) (a x : ℚ) (hx : x ∈ l) :
    l.foldl min a ≤ x := by
  induction l generalizing a with
  | nil => cases hx
  | cons b t ih =>
    rcases List.mem_cons.1 hx with rfl | hx'
    · exact le_trans (foldl_min_le_init t (min a x)) (min_le_right a x)
    · exact ih (min a b) hx'

theorem foldl_min_mem (l : List ℚ) (a : ℚ) : l.foldl min a ∈ a :: l := by
  induction l generalizing a with
  | nil => exact List.mem_singleton.2 rfl
  | cons b t ih =>
    rw [List.foldl_cons]
    have h := ih (min a b)
    rcases List.mem_cons.1 h with he | ht
    · rcases min_choice a b with hm | hm
      · rw [he, hm]; exact List.mem_cons_self _ _
      · rw [he, hm]; exact List.mem_cons_of_mem _ (List.mem_cons_self _ _)
    · exact List.mem_cons_of_mem _ (List.mem_cons_of_mem _ ht)

theorem bumpNat_length (hist : List ℕ) (n : ℕ) :
    (bumpNat hist n).length = hist.length := by
  induction hist generalizing n with
  | nil => rfl
  | cons h t ih => cases n with
    | zero => rfl
    | succ m =>
      show (bumpNat t m).length + 1 = t.length + 1
      rw [ih m]

theorem bumpNat_sum (hist : List ℕ) (n : ℕ) (h : n < hist.length) :
    (bumpNat hist n).sum = hist.sum + 1 := by
  induction hist generalizing n with
  | nil => simp at h
  | cons hd t ih =>
    cases n with
    | zero =>
      simp only [bumpNat, List.sum_cons]
      omega
    | succ m =>
      have h2 := ih m (by simpa using h)
      simp only [bumpNat, List.sum_cons, h2]
      omega

theorem bumpAt_length (hist : List ℕ) (i : ℤ) :
    (bumpAt hist i).length = hist.length := by
  unfold bumpAt
  split
  · rfl
  · exact bumpNat_length hist i.toNat

theorem bumpAt_sum (hist : List ℕ) (i : ℤ) (h0 : 0 ≤ i)
    (h1 : i < (hist.length : ℤ)) :
    (bumpAt hist i).sum = hist.sum + 1 := by
  unfold bumpAt
  rw [if_neg (by omega)]
  exact bumpNat_sum hist i.toNat (by omega)

/-- Folding bucket increments over samples whose indices stay in range adds
exactly one count per sample. -/
theorem histFold_sum (vs : List ℚ) (g : ℚ → ℤ) (hist : List ℕ)
    (hg : ∀ v ∈ vs, 0 ≤ g v ∧ g v < (hist.length : ℤ)) :
    (vs.foldl (fun h v => bumpAt h (g v)) hist).sum = hist.sum + vs.length := by
  induction vs generalizing hist with
  | nil => simp
  | cons v t ih =>
    have hv := hg v (List.mem_cons_self _ _)
    rw [List.foldl_cons]
    rw [ih (bumpAt hist (g v)) (fun w hw => by
      rw [bumpAt_length]; exact hg w (List.mem_cons_of_mem _ hw))]
    rw [bumpAt_sum hist (g v) hv.1 hv.2]
    simp only [List.length_cons]
    omega

/-- The snapshot built by `analyze`, field by field. -/
theorem analyze_fields (cfg : RegistryConfig) (opts : ProfileOpts)
    (ct : List ℚ) (cnt : ℕ) (hist : List ℚ) :
    (analyze cfg opts ct cnt hist).median = (sortAsc ct).get? 50 ∧
    (analyze cfg opts ct cnt hist).hot = jsIndex (sortAsc ct)
      (((sortAsc ct).length : ℚ) *
        jsOrQ opts.percentile cfg.hotPercentile).floor ∧
    (analyze cfg opts ct cnt hist).min = (sortAsc ct).get? 0 ∧
    (analyze cfg opts ct cnt hist).max = (sortAsc ct).get? 99 ∧
    (analyze cfg opts ct cnt hist).count = cnt :=
  ⟨rfl, rfl, rfl, rfl, rfl⟩

/-! ### Claim theorems -/

/-- C4: for every call to a wrapped function in which the underlying callee
throws, the exception propagates to the caller unchanged, and no sample is
appended to the analysis buffer or rolling history, the call counter is not
incremented, and no statistics update occurs for that call (the wrapper
state after the call is exactly the state before it). -/
theorem C4_callee_failure_atomic (cfg : RegistryConfig) (opts : ProfileOpts)
    (fn : JSFunction) (s : WrapperState) (args : List JVal) (dt : ℚ)
    (e : String)
    (herr : fn.eval args = Except.error e)
    (hmiss : cacheGet s.memoCache (stringifyArgs args) = none) :
    callStep cfg opts fn s args dt = Except.error e ∧
    runCalls cfg opts fn s [(args, dt)] = s := by
  have hac : activeCall fn s args = Except.error e := by
    unfold activeCall memoCall
    cases hso : s.isOptimized with
    | false => simp [hso, herr]
    | true => simp [hso, hmiss, herr]
  have h1 : callStep cfg opts fn s args dt = Except.error e := by
    unfold callStep
    rw [hac]
  refine ⟨h1, ?_⟩
  rw [runCalls_cons, h1, runCalls_nil]

/-- Witness for C4: a single call to a wrapper around a throwing callee
propagates the exception and leaves the fresh wrapper state untouched. -/
theorem C4_callee_failure_atomic_witness :
    callStep defaultCfg defaultOpts throwFn initWrapper [] 1 =
      Except.error "boom" ∧
    runCalls defaultCfg defaultOpts throwFn initWrapper [([], 1)] =
      initWrapper :=
  C4_callee_failure_atomic defaultCfg defaultOpts throwFn initWrapper [] 1
    "boom" rfl rfl

/-- C10: `wrapper.__jacheStats()` returns the empty object (never `null`,
`undefined`, or a thrown error) as long as no snapshot has been published
under the wrapper's name — in particular after any run of fewer than 100
calls from a fresh wrapper — and returns the stored snapshot once the
registry holds one. -/
theorem C10_jacheStats_total :
    (∀ cfg opts fn calls, calls.length < 100 →
      jacheStats (runCalls cfg opts fn initWrapper calls) =
        JacheStatsResult.emptyObj) ∧
    (∀ s st, s.stats = some st → jacheStats s = JacheStatsResult.obj st) := by
  constructor
  · intro cfg opts fn calls hlen
    have h := runCalls_pre100 cfg opts fn initWrapper calls rfl rfl rfl
      (by simp only [initWrapper, List.length_nil]; omega)
    unfold jacheStats
    rw [h.1]
  · intro s st h
    unfold jacheStats
    rw [h]

/-- Witness for C10: 5 calls leave `__jacheStats()` at the empty object; a
state holding a snapshot returns that snapshot. -/
theorem C10_jacheStats_total_witness :
    jacheStats (runCalls defaultCfg defaultOpts addFn initWrapper
      (constCalls 5 [] 1)) = JacheStatsResult.emptyObj ∧
    jacheStats c10State = JacheStatsResult.obj c10Stats :=
  ⟨C10_jacheStats_total.1 defaultCfg defaultOpts addFn (constCalls 5 [] 1)
      (by decide),
   C10_jacheStats_total.2 c10State c10Stats rfl⟩

/-- C6: `buildHistogram` returns `bins` zero-filled buckets on empty input;
a single bucket holding the full count when `min == max`; and in every case
the bucket counts sum to the number of samples. -/
theorem C6_buildHistogram_correct (arr : List ℚ) (bins : ℕ) (hb : 1 ≤ bins) :
    buildHistogram [] bins = List.replicate bins 0 ∧
    (∀ a rest, arr = a :: rest → rest.foldl min a = rest.foldl max a →
      buildHistogram arr bins = [arr.length]) ∧
    (buildHistogram arr bins).sum = arr.length := by
  refine ⟨rfl, ?_, ?_⟩
  · rintro a rest rfl heq
    simp only [buildHistogram]
    rw [if_pos heq]
  · cases arr with
    | nil =>
      simp only [buildHistogram, List.length_nil]
      simp [List.sum_replicate]
    | cons a rest =>
      simp only [buildHistogram]
      by_cases heq : rest.foldl min a = rest.foldl max a
      · rw [if_pos heq]
        simp
      · rw [if_neg heq]
        have hle : rest.foldl min a ≤ rest.foldl max a :=
          le_trans (foldl_min_le_init rest a) (le_foldl_max_init rest a)
        have hlt : rest.foldl min a < rest.foldl max a := lt_of_le_of_ne hle heq
        have hbq : (0:ℚ) < (bins:ℚ) := by exact_mod_cast Nat.lt_of_lt_of_le Nat.zero_lt_one hb
        have hstep : (0:ℚ) < (rest.foldl max a - rest.foldl min a) / (bins:ℚ) :=
          div_pos (by linarith) hbq
        rw [histFold_sum (a :: rest) _ (List.replicate bins 0) ?_]
        · simp [List.sum_replicate]
        · intro v hv
          have hmnv : rest.foldl min a ≤ v := by
            rcases List.mem_cons.1 hv with rfl | hv'
            · exact foldl_min_le_init rest v
            · exact foldl_min_le_mem rest a v hv'
          constructor
          · apply le_min
            · omega
            · rw [ratFloor_eq]
              apply Int.floor_nonneg.2
              apply div_nonneg (by linarith) (le_of_lt hstep)
          · apply lt_of_le_of_lt (min_le_left _ _)
            rw [List.length_replicate]
            omega

/-- Witness for C6: a concrete three-sample histogram with the default 10
bins. -/
theorem C6_buildHistogram_correct_witness :
    buildHistogram [] 10 = List.replicate 10 0 ∧
    (∀ a rest, ([(1:ℚ), 2, 2] : List ℚ) = a :: rest →
      rest.foldl min a = rest.foldl max a →
      buildHistogram [(1:ℚ), 2, 2] 10 = [([(1:ℚ), 2, 2] : List ℚ).length]) ∧
    (buildHistogram [(1:ℚ), 2, 2] 10).sum = ([(1:ℚ), 2, 2] : List ℚ).length :=
  C6_buildHistogram_correct [(1:ℚ), 2, 2] 10 (by decide)

/-- C3 (failing input for the lazy-activation claim): the source ignores
`profileAfter` entirely — the constructor does not destructure it and the
wrapper has no cold fast path — so even with `profileAfter = 100` configured
registry-wide and per-registration, the very first call records its sample
in both the analysis buffer and the rolling history and increments the call
counter. -/
theorem C3_lazy_activation_bug :
    c3Cfg = defaultCfg ∧
    c3Run.callTimes = [2] ∧
    c3Run.history = [2] ∧
    c3Run.callCount = 1 := by decide

/-- C7 (failing input for the rolling-history-bound claim): the wrapper
bounds the rolling history by `opts.historySize || 1000`, ignoring the
registry-wide `historySize` stored by the constructor: with
`new SmartProfiler({historySize: 5})` and no per-registration override,
7 calls leave 7 entries in the history.  The per-registration override
does bound the history, FIFO (oldest evicted first). -/
theorem C7_history_bound_bug :
    c7Cfg.historySize = 5 ∧
    c7Run.history = [10, 20, 30, 40, 50, 60, 70] ∧
    c7Run2.history = [3, 4, 5] := by decide

theorem addFn_noThrow : noThrow addFn := by
  intro args
  cases args with
  | nil => exact ⟨_, rfl⟩
  | cons a t =>
    cases a with
    | str s => exact ⟨_, rfl⟩
    | num n =>
      cases t with
      | nil => exact ⟨_, rfl⟩
      | cons b u =>
        cases b with
        | str s2 => exact ⟨_, rfl⟩
        | num m =>
          cases u with
          | nil => exact ⟨_, rfl⟩
          | cons c v => exact ⟨_, rfl⟩

/-- C1: with memoization enabled, hot value 5 exceeding the default
`minTimeMs = 1` and the purity heuristic accepting `(a, b) => a + b`, the
swap is installed at call 100 (after 100 underlying invocations); the next
call `(2, 3)` invokes the underlying function (a 101st time) and returns 5,
the second call `(2, 3)` is served from the cache (underlying-invocation
count stays 101) and still returns 5, the call `(3, 2)` misses the cache
(order distinguishes keys) and invokes the underlying function again; and
the cache key of the number `1` differs from that of the string `"1"`. -/
theorem C1_memoization_correct :
    c1Base.isOptimized = true ∧
    c1Base.optimizedTag = some "memoized" ∧
    c1Base.fnCalls = 100 ∧
    stepOut c1Step1 = some (JVal.num 5, true) ∧
    stepOut c1Step2 = some (JVal.num 5, false) ∧
    c1S2.fnCalls = 101 ∧
    stepOut c1Step3 = some (JVal.num 5, true) ∧
    c1S3.fnCalls = 102 ∧
    stringifyArgs [JVal.num 1] ≠ stringifyArgs [JVal.str "1"] := by decide

/-- C2 (counterexample): the percentile index is *not* clamped.  With an
effective percentile of `1.0` over a 100-sample buffer of constant value 5
the index is 100, one past the end, so the published hot value is
`undefined` (`none`) — not the maximum sample 5. -/
theorem C2_percentile_counterexample :
    jsOrQ c2Opts.percentile defaultCfg.hotPercentile = 1 ∧
    (c2Run.stats.map FnStats.hot) = some none ∧
    (c2Run.stats.map FnStats.max) = some (some 5) := by decide

/-- C8 (counterexample): a supplied `minTimeMs` of `0` does *not* take
precedence over the registry default.  `opts.minTimeMs || this.minTimeMs`
treats `0` as falsy: with hot value `0.5`, `memoize: true` and a pure
callee, the claim's gate (`0.5 > 0`) would install the swap, but the code
compares against the registry default `1` and does not optimize. -/
theorem C8_override_counterexample :
    c8Opts.minTimeMs = some 0 ∧
    c8Opts.memoize = true ∧
    isPure addFn = true ∧
    (c8Run.stats.map FnStats.hot) = some (some (1/2)) ∧
    ((0:ℚ) < 1/2) ∧
    c8Run.isOptimized = false ∧
    c8Run.optimizedTag = none := by decide

/-- C9 (failing input): `setThresholds` stores the override in
`customThresholds`, but no code path ever reads that map — a registration
made *after* `setThresholds('slow', {minTimeMs: 100})` still analyzes with
the registry default `minTimeMs = 1`: a hot value of 5 (< 100) triggers the
memoization swap even though the stored override says it must not.
(A registration supplying no thresholds also leaves the stored entry
untouched.) -/
theorem C9_setThresholds_dead :
    c9Reg.customThresholds =
      [("slow", { minTimeMs := some 100, percentile := none })] ∧
    c9Run.optimizedTag = some "memoized" ∧
    (c9Run.stats.map FnStats.hot) = some (some 5) ∧
    (profileRegister c9Reg "slow" c9Opts).customThresholds =
      c9Reg.customThresholds := by decide

/-- C2 (amended): percentile extraction is index `floor(len * p)` into the
ascending-sorted samples with *no* clamping: over a 100-sample buffer an
effective percentile of `0.0` yields the minimum sample, while an effective
percentile of `1.0` yields index 100 — one past the end — and therefore the
undefined value (`none`), not the maximum. -/
theorem C2_percentile_amended (cfgOne : RegistryConfig) (optsOne : ProfileOpts)
    (cfgZero : RegistryConfig) (optsZero : ProfileOpts)
    (samples : List ℚ) (cnt : ℕ) (hist : List ℚ)
    (hlen : samples.length = 100)
    (hone : jsOrQ optsOne.percentile cfgOne.hotPercentile = 1)
    (hzero : jsOrQ optsZero.percentile cfgZero.hotPercentile = 0) :
    (analyze cfgOne optsOne samples cnt hist).hot = none ∧
    (analyze cfgZero optsZero samples cnt hist).hot = listMin samples ∧
    (∀ m, listMin samples = some m → m ∈ samples ∧ ∀ x ∈ samples, m ≤ x) := by
  have hslen : (sortAsc samples).length = 100 := by rw [sortAsc_length, hlen]
  refine ⟨?_, ?_, ?_⟩
  · show jsIndex (sortAsc samples)
      (((sortAsc samples).length : ℚ) *
        jsOrQ optsOne.percentile cfgOne.hotPercentile).floor = none
    rw [hone, hslen]
    have h100 : (((100:ℕ) : ℚ) * 1).floor = 100 := by decide
    rw [h100]
    unfold jsIndex
    rw [if_neg (by omega)]
    exact List.get?_eq_none.2 (by rw [hslen]; norm_num)
  · show jsIndex (sortAsc samples)
      (((sortAsc samples).length : ℚ) *
        jsOrQ optsZero.percentile cfgZero.hotPercentile).floor = listMin samples
    rw [hzero, mul_zero]
    have h0 : (0:ℚ).floor = 0 := by decide
    rw [h0]
    unfold jsIndex
    rw [if_neg (by omega)]
    cases hsam : samples with
    | nil => rw [hsam] at hlen; simp at hlen
    | cons a rest =>
      cases hs : sortAsc (a :: rest) with
      | nil => rw [hsam, hs] at hslen; simp at hslen
      | cons m srest =>
        have hsorted := sortAsc_sorted (a :: rest)
        rw [hs] at hsorted
        have hperm := sortAsc_perm (a :: rest)
        rw [hs] at hperm
        have hm_mem : m ∈ a :: rest := hperm.subset (List.mem_cons_self m srest)
        have hfold_le_m : rest.foldl min a ≤ m := by
          rcases List.mem_cons.1 hm_mem with rfl | hm'
          · exact foldl_min_le_init rest m
          · exact foldl_min_le_mem rest a m hm'
        have hfold_mem_sorted : rest.foldl min a ∈ m :: srest :=
          hperm.symm.subset (foldl_min_mem rest a)
        have hm_le_fold : m ≤ rest.foldl min a := by
          rcases List.mem_cons.1 hfold_mem_sorted with he | hmem
          · rw [he]
          · exact List.rel_of_sorted_cons hsorted _ hmem
        show (m :: srest).get? (0:ℤ).toNat = listMin (a :: rest)
        show some m = some (rest.foldl min a)
        rw [le_antisymm hm_le_fold hfold_le_m]
  · intro m hm
    cases samples with
    | nil => simp [listMin] at hm
    | cons a rest =>
      have hm' : rest.foldl min a = m := by
        simpa [listMin] using hm
      rw [← hm']
      refine ⟨foldl_min_mem rest a, ?_⟩
      intro x hx
      rcases List.mem_cons.1 hx with rfl | hx'
      · exact foldl_min_le_init rest x
      · exact foldl_min_le_mem rest a x hx'

/-- Witness for the amended C2, over the constant 100-sample buffer of 5s:
effective percentile 1 gives an undefined hot value, effective percentile 0
gives the minimum. -/
theorem C2_percentile_amended_witness :
    (analyze c2OneCfg defaultOpts (List.replicate 100 (5:ℚ)) 100 []).hot =
      none ∧
    (analyze c2ZeroCfg defaultOpts (List.replicate 100 (5:ℚ)) 100 []).hot =
      listMin (List.replicate 100 (5:ℚ)) ∧
    (∀ m, listMin (List.replicate 100 (5:ℚ)) = some m →
      m ∈ List.replicate 100 (5:ℚ) ∧ ∀ x ∈ List.replicate 100 (5:ℚ), m ≤ x) :=
  C2_percentile_amended c2OneCfg defaultOpts c2ZeroCfg defaultOpts
    (List.replicate 100 (5:ℚ)) 100 [] (by decide) (by decide) (by decide)

/-- C8 (amended): at the analysis instant the memoization swap is installed
if and only if the hot value exceeds the effective `minTimeMs`, the
registration opted into memoization, and the purity heuristic accepts the
original function — where the effective `minTimeMs` (and likewise the
effective percentile, inside `analyze`) is the per-registration override
only when it was supplied *and is nonzero* (JS `||` treats a supplied `0`
as absent), and the registry default otherwise. -/
theorem C8_optimization_gate_amended (cfg : RegistryConfig)
    (opts : ProfileOpts) (fn : JSFunction) (s : WrapperState)
    (args : List JVal) (dt : ℚ) (res : JVal) (inv : Bool) (s2 : WrapperState)
    (h : callStep cfg opts fn s args dt = Except.ok (res, inv, s2))
    (hopt : s.isOptimized = false) (htag : s.optimizedTag = none)
    (hlen : s.callTimes.length = 99) :
    (s2.optimizedTag = some "memoized" ∧ s2.isOptimized = true) ↔
      ((∃ hq, (analyze cfg opts (s.callTimes ++ [dt]) (s.callCount + 1)
            (trimHist opts s.history dt)).hot = some hq ∧
          jsOrQ opts.minTimeMs cfg.minTimeMs < hq) ∧
        opts.memoize = true ∧ isPure fn = true) := by
  obtain ⟨hstat, hiso, htag2⟩ := callStep_analysis h hopt hlen
  have htag3 := htag2 htag
  constructor
  · rintro ⟨h1, h2⟩
    have hg := htag3.1 h1
    unfold optGate at hg
    rw [Bool.and_eq_true, Bool.and_eq_true] at hg
    obtain ⟨⟨hmatch, hmem⟩, hpure⟩ := hg
    cases hhot : (analyze cfg opts (s.callTimes ++ [dt]) (s.callCount + 1)
        (trimHist opts s.history dt)).hot with
    | none => rw [hhot] at hmatch; cases hmatch
    | some hq =>
      rw [hhot] at hmatch
      exact ⟨⟨hq, rfl, of_decide_eq_true hmatch⟩, hmem, hpure⟩
  · rintro ⟨⟨hq, hhot, hlt⟩, hmem, hpure⟩
    have hg : optGate cfg opts fn (analyze cfg opts (s.callTimes ++ [dt])
        (s.callCount + 1) (trimHist opts s.history dt)) = true := by
      unfold optGate
      rw [hhot, hmem, hpure]
      simp [hlt]
    exact ⟨htag3.2 hg, hiso.2 hg⟩

/-- Witness for the amended C8: from a buffer of 99 samples of 5 ms, a
100th call under `memoize: true` with hot value 5 exceeding the default
`minTimeMs = 1` installs the swap and records the tag. -/
theorem C8_optimization_gate_amended_witness :
    c8wS2.optimizedTag = some "memoized" ∧ c8wS2.isOptimized = true :=
  (C8_optimization_gate_amended defaultCfg c8wOpts addFn c8wState [] 5
      (JVal.num 0) true c8wS2 rfl rfl rfl (by decide)).mpr
    ⟨⟨5, by decide, by decide⟩, rfl, by decide⟩

/-- C5: analysis happens exactly once, at the instant the analysis buffer
reaches 100 samples: (i) the 100th call of an unoptimized wrapper publishes
the snapshot computed by `analyze` from the sorted buffer; (ii) the
snapshot's min/median/max are the sorted buffer's indices 0/50/99 and its
count is the call count at analysis time; (iii) once the buffer holds 100
samples the published snapshot never changes on later calls; and (iv) when
every one of the first 100 measured durations is the same value `d`, the
published statistics satisfy `median = hot = min = max = d` with count
100. -/
theorem C5_analysis_once :
    (∀ cfg opts fn s args dt res inv s2,
      callStep cfg opts fn s args dt = Except.ok (res, inv, s2) →
      s.isOptimized = false → s.callTimes.length = 99 →
      s2.stats = some (analyze cfg opts (s.callTimes ++ [dt])
        (s.callCount + 1) (trimHist opts s.history dt))) ∧
    (∀ cfg opts callTimes cnt hist,
      (analyze cfg opts callTimes cnt hist).min = (sortAsc callTimes).get? 0 ∧
      (analyze cfg opts callTimes cnt hist).median =
        (sortAsc callTimes).get? 50 ∧
      (analyze cfg opts callTimes cnt hist).max = (sortAsc callTimes).get? 99 ∧
      (analyze cfg opts callTimes cnt hist).count = cnt) ∧
    (∀ cfg opts fn s calls, 100 ≤ s.callTimes.length →
      (runCalls cfg opts fn s calls).stats = s.stats) ∧
    (∀ d : ℚ,
      ((runCalls defaultCfg defaultOpts addFn initWrapper
          (constCalls 100 [] d)).stats.map FnStats.median) = some (some d) ∧
      ((runCalls defaultCfg defaultOpts addFn initWrapper
          (constCalls 100 [] d)).stats.map FnStats.hot) = some (some d) ∧
      ((runCalls defaultCfg defaultOpts addFn initWrapper
          (constCalls 100 [] d)).stats.map FnStats.min) = some (some d) ∧
      ((runCalls defaultCfg defaultOpts addFn initWrapper
          (constCalls 100 [] d)).stats.map FnStats.max) = some (some d) ∧
      ((runCalls defaultCfg defaultOpts addFn initWrapper
          (constCalls 100 [] d)).stats.map FnStats.count) = some 100) := by
  refine ⟨?_, ?_, ?_, ?_⟩
  · intro cfg opts fn s args dt res inv s2 h hopt hlen
    exact (callStep_analysis h hopt hlen).1
  · intro cfg opts callTimes cnt hist
    exact ⟨rfl, rfl, rfl, rfl⟩
  · intro cfg opts fn s calls hlen
    exact (runCalls_frozen cfg opts fn s calls hlen).1
  · intro d
    have hnt := addFn_noThrow
    have hsplit : constCalls 100 ([] : List JVal) d =
        constCalls 99 [] d ++ [([], d)] := by
      unfold constCalls
      rw [← List.replicate_succ' 99 (([] : List JVal), d)]
    have hct : (runCalls defaultCfg defaultOpts addFn initWrapper
        (constCalls 99 [] d)).callTimes = List.replicate 99 d := by
      rw [runCalls_callTimes defaultCfg defaultOpts hnt]
      show [] ++ (List.replicate 99 (([] : List JVal), d)).map Prod.snd =
        List.replicate 99 d
      rw [List.map_replicate, List.nil_append]
    have hcc : (runCalls defaultCfg defaultOpts addFn initWrapper
        (constCalls 99 [] d)).callCount = 99 := by
      rw [runCalls_callCount defaultCfg defaultOpts hnt]
      show 0 + (List.replicate 99 (([] : List JVal), d)).length = 99
      rw [List.length_replicate]
    have hpre := runCalls_pre100 defaultCfg defaultOpts addFn initWrapper
      (constCalls 99 [] d) rfl rfl rfl
      (by show 0 + (List.replicate 99 (([] : List JVal), d)).length < 100
          rw [List.length_replicate]; omega)
    obtain ⟨res, inv, s2, hstep⟩ := callStep_ok_of_noThrow defaultCfg
      defaultOpts hnt
      (runCalls defaultCfg defaultOpts addFn initWrapper (constCalls 99 [] d))
      [] d
    have hrun : runCalls defaultCfg defaultOpts addFn initWrapper
        (constCalls 100 [] d) = s2 := by
      rw [hsplit, runCalls_append, runCalls_cons, hstep, runCalls_nil]
    have hana := (callStep_analysis hstep hpre.2.1
      (by rw [hct, List.length_replicate])).1
    rw [hct, hcc] at hana
    have hrep : List.replicate 99 d ++ [d] = List.replicate 100 d :=
      (List.replicate_succ' 99 d).symm
    rw [hrep] at hana
    have hsorted : sortAsc (List.replicate 100 d) = List.replicate 100 d :=
      sortAsc_replicate 100 d
    rw [hrun, hana]
    obtain ⟨hfmed, hfhot, hfmin, hfmax, hfcnt⟩ := analyze_fields defaultCfg
      defaultOpts (List.replicate 100 d) (99 + 1)
      (trimHist defaultOpts (runCalls defaultCfg defaultOpts addFn
        initWrapper (constCalls 99 [] d)).history d)
    have hidx : (((sortAsc (List.replicate 100 d)).length : ℚ) *
        jsOrQ defaultOpts.percentile defaultCfg.hotPercentile).floor = 95 := by
      rw [hsorted, List.length_replicate]
      decide
    have hget : ∀ k : ℕ, k < 100 →
        (sortAsc (List.replicate 100 d)).get? k = some d := by
      intro k hk
      rw [hsorted]
      exact replicate_get? d 100 k hk
    have hhot : jsIndex (sortAsc (List.replicate 100 d))
        (((sortAsc (List.replicate 100 d)).length : ℚ) *
          jsOrQ defaultOpts.percentile defaultCfg.hotPercentile).floor =
        some d := by
      rw [hidx]
      unfold jsIndex
      rw [if_neg (by omega)]
      exact hget (95 : ℤ).toNat (by omega)
    refine ⟨?_, ?_, ?_, ?_, ?_⟩
    · rw [Option.map_some', hfmed, hget 50 (by omega)]
    · rw [Option.map_some', hfhot, hhot]
    · rw [Option.map_some', hfmin, hget 0 (by omega)]
    · rw [Option.map_some', hfmax, hget 99 (by omega)]
    · rw [Option.map_some', hfcnt]

/-- Witness for C5: the analysis step from a concrete 99-sample state, the
structural snapshot fields, freezing after 100 samples, and the constant-
duration run at `d = 7`. -/
theorem C5_analysis_once_witness :
    c5wS2.stats = some (analyze defaultCfg defaultOpts
      (c5wState.callTimes ++ [7]) (c5wState.callCount + 1)
      (trimHist defaultOpts c5wState.history 7)) ∧
    (analyze defaultCfg defaultOpts [(3:ℚ)] 1 []).count = 1 ∧
    (runCalls defaultCfg defaultOpts addFn c5wS2 (constCalls 3 [] 1)).stats =
      c5wS2.stats ∧
    ((runCalls defaultCfg defaultOpts addFn initWrapper
      (constCalls 100 [] 7)).stats.map FnStats.median) = some (some 7) :=
  ⟨C5_analysis_once.1 defaultCfg defaultOpts addFn c5wState [] 7
      (JVal.num 0) true c5wS2 rfl rfl (by decide),
   (C5_analysis_once.2.1 defaultCfg defaultOpts [(3:ℚ)] 1 []).2.2.2,
   C5_analysis_once.2.2.1 defaultCfg defaultOpts addFn c5wS2
     (constCalls 3 [] 1) (by decide),
   (C5_analysis_once.2.2.2 7).1⟩

end Jache
